import Mathlib

/-!
Verification of the fallback-cascade scraper (`ultimate_scraper.py`).

The development shallowly embeds the pure logic of the program:
the HTML cleaning normalizer `clean_html`, the per-strategy result logic
(`fast_scrape`, `playwright_scrape`, `firefox_scrape`, `chrome_scrape`),
the cascade orchestrator `scrape_url_orchestrator`, and the console
output / exit-code logic of `main`.  External effects (HTTP responses,
browser page sources, library availability, the filesystem) are passed
in as explicit parameters.  Machine strings are Lean `String`s; the
character-level helpers work on `List Char` (the `data` of a `String`).
-/

namespace UScraper

/-- Whitespace test matching Python's `str.strip()` / `re` `\s` on the
ASCII range (the only characters relevant to the program's text handling):
space, tab, newline, carriage return, vertical tab, form feed. -/
def isWs (c : Char) : Bool :=
  c = ' ' || c = '\t' || c = '\n' || c = '\r' || c = '\x0b' || c = '\x0c'

/-- Python `str.strip()` on a character list: drop whitespace from both ends. -/
def stripChars (l : List Char) : List Char :=
  ((l.dropWhile isWs).reverse.dropWhile isWs).reverse

/-- Python `str.strip()` on strings. -/
def stripStr (s : String) : String := String.mk (stripChars s.data)

/-- Greedy tail of the regex match `\n\s*\n` (from `re.sub(r'\n\s*\n', ...)`,
line 86 of `ultimate_scraper.py`): given the characters following an initial
`'\n'`, if the maximal whitespace run at the head contains a `'\n'`, return
the remainder after the *last* such `'\n'` (the greedy `\s*` backtracks just
enough to leave a final `'\n'`); otherwise the regex does not match here. -/
def afterLastNl : List Char → Option (List Char)
  | [] => none
  | c :: t =>
    if isWs c then
      match afterLastNl t with
      | some r => some r
      | none => if c = '\n' then some t else none
    else none

/-- One fuel-indexed pass of `re.sub(r'\n\s*\n', '\n\n', text)`
(line 86 of `ultimate_scraper.py`): scan left to right; at each `'\n'`
attempt the greedy match `\n\s*\n`; on a match emit `"\n\n"` and resume
after the match (non-overlapping), otherwise copy the character.
The fuel only serves termination; `collapse` supplies enough. -/
def collapseGo : Nat → List Char → List Char
  | 0, l => l
  | _ + 1, [] => []
  | fuel + 1, c :: rest =>
    if c = '\n' then
      match afterLastNl rest with
      | some r => '\n' :: '\n' :: collapseGo fuel r
      | none => '\n' :: collapseGo fuel rest
    else c :: collapseGo fuel rest

/-- The full substitution `re.sub(r'\n\s*\n', '\n\n', text)` on a character list. -/
def collapseChars (l : List Char) : List Char := collapseGo l.length l

/-- The full substitution `re.sub(r'\n\s*\n', '\n\n', text)` on strings. -/
def collapseStr (s : String) : String := String.mk (collapseChars s.data)

/-! ## The document tree produced by the HTML parser

`clean_html` hands the raw markup to BeautifulSoup (line 72) and then works
on the resulting tree.  The tree and the parser below model the external
parser's behavior (html.parser / lxml with `convert_charrefs`: character
references are decoded into the adjacent text) on the well-formed markup
fragment exercised here; the functions after the parser are translated
directly from `clean_html` (lines 74-92). -/

mutual
/-- A node of the parsed document: a text run or an element with its
attributes and children. -/
inductive Html where
  | text (s : String)
  | elem (name : String) (attrs : List (String × String)) (children : Forest)
/-- A list of sibling nodes (mutual with `Html` so that recursion over the
tree is structural). -/
inductive Forest where
  | nil
  | cons (h : Html) (t : Forest)
end

/-- Recognize a character reference right after a `'&'`: the references
that can occur in the text handled here (`&lt;` `&gt;` `&amp;` `&quot;`). -/
def entityAt : List Char → Option (Char × List Char)
  | 'l' :: 't' :: ';' :: r => some ('<', r)
  | 'g' :: 't' :: ';' :: r => some ('>', r)
  | 'a' :: 'm' :: 'p' :: ';' :: r => some ('&', r)
  | 'q' :: 'u' :: 'o' :: 't' :: ';' :: r => some ('"', r)
  | _ => none

/-- Fueled scan decoding character references into literal characters;
a `'&'` that opens no known reference stays literal. -/
def unescapeGo : Nat → List Char → List Char
  | 0, l => l
  | _ + 1, [] => []
  | fuel + 1, c :: t =>
    if c = '&' then
      match entityAt t with
      | some (d, r) => d :: unescapeGo fuel r
      | none => '&' :: unescapeGo fuel t
    else c :: unescapeGo fuel t

/-- Decode the character references of a text run
(`convert_charrefs` behavior of the external parser). -/
def unescapeChars (l : List Char) : List Char := unescapeGo l.length l

def isAsciiLetter (c : Char) : Bool :=
  ('a' ≤ c && c ≤ 'z') || ('A' ≤ c && c ≤ 'Z')

def isNameChar (c : Char) : Bool :=
  isAsciiLetter c || ('0' ≤ c && c ≤ '9') || c = '-'

/-- Does the character list after a `'<'` begin a markup construct?
(An HTML parser treats `'<'` as literal text unless followed by a letter,
`'/'`, `'!'` or `'?'`.) -/
def startsTag : List Char → Bool
  | [] => false
  | c :: _ => isAsciiLetter c || c = '/' || c = '!' || c = '?'

/-- Scan literal text up to the next markup-opening `'<'`; returns the text
and the remaining input (which is either empty or starts with that `'<'`). -/
def takeText : List Char → List Char × List Char
  | [] => ([], [])
  | c :: t =>
    if c = '<' && startsTag t then ([], c :: t)
    else
      let (a, r) := takeText t
      (c :: a, r)

/-- Skip through the next `'>'` (end of a tag or of a comment/declaration). -/
def skipPastGt (l : List Char) : List Char :=
  (l.dropWhile (fun c => c ≠ '>')).drop 1

/-- Parse the attribute list of an open tag, up to the closing `'>'`.
Returns the attributes, whether the tag was self-closing (`/>`), and the
input after the `'>'`.  Fueled for termination. -/
def parseAttrs : Nat → List Char → List (String × String) × Bool × List Char
  | 0, l => ([], false, l)
  | fuel + 1, l =>
    match l.dropWhile isWs with
    | [] => ([], false, [])
    | '>' :: r => ([], false, r)
    | '/' :: '>' :: r => ([], true, r)
    | l' =>
      let nm := l'.takeWhile (fun c => !isWs c && c ≠ '=' && c ≠ '>' && c ≠ '/')
      let r1 := l'.drop (max nm.length 1)
      match r1 with
      | '=' :: '"' :: r2 =>
        let v := r2.takeWhile (fun c => c ≠ '"')
        let (as, sc, rest) := parseAttrs fuel (r2.drop (v.length + 1))
        ((String.mk (nm.map Char.toLower), String.mk (unescapeChars v)) :: as, sc, rest)
      | '=' :: '\'' :: r2 =>
        let v := r2.takeWhile (fun c => c ≠ '\'')
        let (as, sc, rest) := parseAttrs fuel (r2.drop (v.length + 1))
        ((String.mk (nm.map Char.toLower), String.mk (unescapeChars v)) :: as, sc, rest)
      | '=' :: r2 =>
        let v := r2.takeWhile (fun c => !isWs c && c ≠ '>')
        let (as, sc, rest) := parseAttrs fuel (r2.drop v.length)
        ((String.mk (nm.map Char.toLower), String.mk (unescapeChars v)) :: as, sc, rest)
      | r1' =>
        let (as, sc, rest) := parseAttrs fuel r1'
        (if nm = [] then as else (String.mk (nm.map Char.toLower), "") :: as, sc, rest)

/-- Elements that never have children (HTML void elements). -/
def voidTags : List String :=
  ["area", "base", "br", "col", "embed", "hr", "img", "input", "link",
   "meta", "source", "track", "wbr"]

/-- Prepend a (possibly empty) text run to a forest; empty runs produce no
node, and character references in the run are decoded. -/
def consText (txt : List Char) (f : Forest) : Forest :=
  match txt with
  | [] => f
  | _ => .cons (.text (String.mk (unescapeChars txt))) f

/-- Recursive-descent parser for the well-formed markup fragment used by the
program.  Returns the nodes of the current nesting level and the input
remaining after the closing tag that ended the level.  Fueled for
termination. -/
def parseNodes : Nat → List Char → Forest × List Char
  | 0, l => (.nil, l)
  | fuel + 1, l =>
    match takeText l with
    | (txt, []) => (consText txt .nil, [])
    | (txt, _ :: r1) =>
      match r1 with
      | '/' :: r2 => (consText txt .nil, skipPastGt r2)
      | '!' :: r2 =>
        let (f, rest) := parseNodes fuel (skipPastGt r2)
        (consText txt f, rest)
      | '?' :: r2 =>
        let (f, rest) := parseNodes fuel (skipPastGt r2)
        (consText txt f, rest)
      | _ =>
        let nm := r1.takeWhile isNameChar
        let r2 := r1.drop nm.length
        let name := String.mk (nm.map Char.toLower)
        let (attrs, selfC, r3) := parseAttrs (r2.length + 1) r2
        if name ∈ voidTags || selfC then
          let (f, rest) := parseNodes fuel r3
          (consText txt (.cons (.elem name attrs .nil) f), rest)
        else
          let (children, r4) := parseNodes fuel r3
          let (f, rest) := parseNodes fuel r4
          (consText txt (.cons (.elem name attrs children) f), rest)

/-- Parse a raw markup string into a document forest (the `soup` of
line 72). -/
def parseHtml (s : String) : Forest :=
  (parseNodes (2 * s.data.length + 2) s.data).1

/-- The noise-tag list of line 75 of `ultimate_scraper.py`. -/
def tags_to_remove : List String :=
  ["script", "style", "nav", "footer", "aside", "header", "form", "iframe",
   "button", "input", "textarea", "select", "option", "noscript", "link", "meta"]

mutual
/-- Model of `tag.decompose()` over one node (lines 76-77): a noise-named element is
removed with its whole subtree; other nodes are kept, their children
filtered. -/
def rmNoiseN : Html → Option Html
  | .text s => some (.text s)
  | .elem n a cs =>
    if n ∈ tags_to_remove then none else some (.elem n a (rmNoiseF cs))
/-- Noise removal over a forest of siblings. -/
def rmNoiseF : Forest → Forest
  | .nil => .nil
  | .cons h t =>
    match rmNoiseN h with
    | some h' => .cons h' (rmNoiseF t)
    | none => rmNoiseF t
end

mutual
/-- Model of `soup.find(...)`: depth-first document-order search for the first
element satisfying the predicate (on name and attributes). -/
def findN (p : String → List (String × String) → Bool) : Html → Option Html
  | .text _ => none
  | .elem n a cs => if p n a then some (.elem n a cs) else findF p cs
/-- Search over a forest of siblings. -/
def findF (p : String → List (String × String) → Bool) : Forest → Option Html
  | .nil => none
  | .cons h t =>
    match findN p h with
    | some x => some x
    | none => findF p t
end

/-- Attribute lookup on a parsed element. -/
def attrOf (key : String) : List (String × String) → Option String
  | [] => none
  | (k, v) :: t => if k == key then some v else attrOf key t

/-- The matcher of `soup.find('main')`. -/
def pMain (n : String) (_ : List (String × String)) : Bool := n == "main"

/-- The matcher of `soup.find('article')`. -/
def pArticle (n : String) (_ : List (String × String)) : Bool := n == "article"

/-- The matcher of `soup.find('div', role='main')`. -/
def pDivRoleMain (n : String) (a : List (String × String)) : Bool :=
  n == "div" && attrOf "role" a == some "main"

/-- The matcher of `soup.find('body')`. -/
def pBody (n : String) (_ : List (String × String)) : Bool := n == "body"

/-- Line 80: `soup.find('main') or soup.find('article') or
soup.find('div', role='main') or soup.find('body')` (a found tag is always
truthy in BeautifulSoup, so `or` takes the first hit). -/
def selectRoot (soup : Forest) : Option Html :=
  match findF pMain soup with
  | some m => some m
  | none =>
    match findF pArticle soup with
    | some a => some a
    | none =>
      match findF pDivRoleMain soup with
      | some d => some d
      | none => findF pBody soup

mutual
/-- The descendant text runs of a node, in document order (the strings
`get_text` concatenates). -/
def getStringsN : Html → List String
  | .text s => [s]
  | .elem _ _ cs => getStringsF cs
/-- Descendant text runs of a forest. -/
def getStringsF : Forest → List String
  | .nil => []
  | .cons h t => getStringsN h ++ getStringsF t
end

/-- Join non-empty text runs with a single `'\n'`. -/
def joinNl : List (List Char) → List Char
  | [] => []
  | [s] => s
  | s :: x :: t => s ++ '\n' :: joinNl (x :: t)

/-- Model of `get_text(separator='\n', strip=True)` (lines 84 and 90): strip each
descendant text run, drop the ones that become empty, join the rest with a
single newline. -/
def getTextChars (strs : List String) : List Char :=
  joinNl ((strs.map (fun s => stripChars s.data)).filter (fun s => !s.isEmpty))

/-- The function `clean_html` (lines 52-98 of `ultimate_scraper.py`): parse, remove the
noise tags, pick the main-content root (falling back to the whole document
when none of the four selectors matches), extract the visible text with
newline separators, collapse blank runs, and strip the ends.  The guard
`if not html_content` (line 63) returns `""` for the empty string. -/
def clean_html (html_content : String) : String :=
  if html_content = "" then ""
  else
    String.mk (stripChars (collapseChars (getTextChars
      (match selectRoot (rmNoiseF (parseHtml html_content)) with
       | some main_content => getStringsN main_content
       | none => getStringsF (rmNoiseF (parseHtml html_content))))))

/-! ## Retrieval strategies (lines 103-373)

Each strategy's external effects are explicit parameters: the text of a
successful HTTP response (`none` models any exception, including non-2xx
raised by `raise_for_status`), a browser's rendered page source (`none`
models any navigation/launch failure), library availability flags, and the
filesystem's answer to `Path(...).exists()`. -/

/-- The function `fast_scrape` (lines 103-140): try httpx, then cloudscraper; the final
`if content:` treats both `None` and the empty string as failure
(Python truthiness), otherwise cleans when `beautify` and returns the pair
`(content, method_used)`. -/
def fast_scrape (httpxText cloudText : Option String) (beautify : Bool) :
    Option String × Option String :=
  let cm : Option String × Option String :=
    match httpxText with
    | some t => (some t, some "httpx")
    | none =>
      match cloudText with
      | some t => (some t, some "cloudscraper")
      | none => (none, none)
  match cm with
  | (some c, m) =>
    if c = "" then (none, none)
    else ((if beautify then some (clean_html c) else some c), m)
  | (none, _) => (none, none)

/-- The function `playwright_scrape` (lines 143-216): unavailable library or any
navigation failure gives `(None, None)`; otherwise the page content is
cleaned when `beautify` and the method is `"playwright"`. -/
def playwright_scrape (available : Bool) (pageContent : Option String) (beautify : Bool) :
    Option String × Option String :=
  if !available then (none, none)
  else
    match pageContent with
    | none => (none, none)
    | some h => (some (if beautify then clean_html h else h), some "playwright")

/-- The argument list built for the Firefox driver (lines 266-275):
base arguments, plus `-profile <path>` only when a profile path is given
(truthy) and exists on disk. -/
def firefoxOptionArgs (profile_path : Option String) (pathExists : String → Bool) :
    List String :=
  ["--headless", "--window-size=1920,1080"] ++
    (match profile_path with
     | some p => if p ≠ "" && pathExists p then ["-profile", p] else []
     | none => [])

/-- The argument list built for the Chrome driver (lines 321-339):
base arguments, plus `--user-data-dir=<path>` only when a profile path is
given (truthy) and exists on disk. -/
def chromeOptionArgs (profile_path : Option String) (pathExists : String → Bool) :
    List String :=
  ["--headless=new", "--no-sandbox", "--disable-dev-shm-usage", "--disable-gpu",
   "--window-size=1920,1080", "--log-level=3"] ++
    (match profile_path with
     | some p => if p ≠ "" && pathExists p then ["--user-data-dir=" ++ p] else []
     | none => [])

/-- The observable outcome of one browser strategy: the driver arguments it
launched with, and the `(content, method)` pair it returned. -/
structure BrowserRun where
  args : List String
  content : Option String
  method : Option String
deriving Repr, DecidableEq

/-- The function `firefox_scrape` (lines 258-310): missing Selenium gives `(None, None)`
before options are built; otherwise the options of `firefoxOptionArgs` are
used and a retrieved page source is cleaned when `beautify`. -/
def firefox_scrape (seleniumAvailable : Bool) (profile_path : Option String)
    (pathExists : String → Bool) (pageSource : Option String) (beautify : Bool) :
    BrowserRun :=
  if !seleniumAvailable then ⟨[], none, none⟩
  else
    let args := firefoxOptionArgs profile_path pathExists
    match pageSource with
    | none => ⟨args, none, none⟩
    | some h => ⟨args, some (if beautify then clean_html h else h), some "firefox"⟩

/-- The function `chrome_scrape` (lines 313-373): same shape as `firefox_scrape` with the
Chrome options and method name `"chrome"`. -/
def chrome_scrape (seleniumAvailable : Bool) (profile_path : Option String)
    (pathExists : String → Bool) (pageSource : Option String) (beautify : Bool) :
    BrowserRun :=
  if !seleniumAvailable then ⟨[], none, none⟩
  else
    let args := chromeOptionArgs profile_path pathExists
    match pageSource with
    | none => ⟨args, none, none⟩
    | some h => ⟨args, some (if beautify then clean_html h else h), some "chrome"⟩

/-! ## Cascade orchestrator (lines 377-425) -/

/-- The result dictionary of `scrape_url_orchestrator`; a missing `"error"`
key is `none`. -/
structure CascadeResult where
  url : String
  content : Option String
  method : Option String
  beautified : Bool
  error : Option String
deriving Repr, DecidableEq

/-- What one loop iteration observes of `scrape_func()` (line 411): either
an exception (caught at line 418) or the returned `(content, method)` pair. -/
inductive AttemptOutcome where
  | raised
  | returned (content : Option String) (method : Option String)
deriving Repr, DecidableEq

/-- The loop of lines 408-425 over the ordered attempt list, also recording
which strategies were invoked: the first attempt whose content is not
`None` updates the result and returns it; an exception or a `None` content
falls through; an exhausted list sets the terminal error. -/
def runAttempts (base : CascadeResult) :
    List (String × AttemptOutcome) → CascadeResult × List String
  | [] => ({ base with error := some "All scraping methods failed" }, [])
  | (name, a) :: rest =>
    match a with
    | .raised =>
      let (res, tr) := runAttempts base rest
      (res, name :: tr)
    | .returned content method_used =>
      match content with
      | some c => ({ base with content := some c, method := method_used }, [name])
      | none =>
        let (res, tr) := runAttempts base rest
        (res, name :: tr)

/-- The external world as one run of the orchestrator observes it. -/
structure ScrapeEnv where
  httpxText : Option String
  cloudText : Option String
  playwrightAvailable : Bool
  playwrightPage : Option String
  seleniumAvailable : Bool
  firefoxPage : Option String
  chromePage : Option String
  pathExists : String → Bool

/-- The ordered attempt list of lines 401-406:
fast → playwright → firefox → chrome. -/
def scrape_attempts (beautify : Bool) (env : ScrapeEnv)
    (firefox_profile chrome_profile : Option String) :
    List (String × AttemptOutcome) :=
  let f := fast_scrape env.httpxText env.cloudText beautify
  let p := playwright_scrape env.playwrightAvailable env.playwrightPage beautify
  let ff := firefox_scrape env.seleniumAvailable firefox_profile env.pathExists
      env.firefoxPage beautify
  let ch := chrome_scrape env.seleniumAvailable chrome_profile env.pathExists
      env.chromePage beautify
  [("fast", .returned f.1 f.2),
   ("playwright", .returned p.1 p.2),
   ("firefox", .returned ff.content ff.method),
   ("chrome", .returned ch.content ch.method)]

/-- Python's `s.startswith(p)`: `p` heads the character list of `s`. -/
def headedBy : List Char → List Char → Bool
  | [], _ => true
  | _ :: _, [] => false
  | c :: p, d :: l => c = d && headedBy p l

/-- The test `url.startswith(p)` on strings. -/
def startswith (url p : String) : Bool := headedBy p.data url.data

/-- The guard of line 393: `not url or not (url.startswith('http://') or
url.startswith('https://'))`. -/
def urlIsInvalid (url : String) : Bool :=
  url == "" || !(startswith url "http://" || startswith url "https://")

/-- The short-circuit result of line 395. -/
def invalidResult (url : String) (beautify : Bool) : CascadeResult :=
  { url := url, content := none, method := none, beautified := beautify,
    error := some "Invalid URL schema" }

/-- The initial result dictionary of line 398. -/
def baseResult (url : String) (beautify : Bool) : CascadeResult :=
  { url := url, content := none, method := none, beautified := beautify,
    error := none }

/-- The function `scrape_url_orchestrator` (lines 377-425) together with the list of
strategies it invoked, in order.  The `playwright_profile` argument only
ever reaches logging (lines 176-182), so it does not influence the
result. -/
def orchestrate (url : String) (beautify : Bool) (env : ScrapeEnv)
    (firefox_profile chrome_profile : Option String) :
    CascadeResult × List String :=
  if urlIsInvalid url then (invalidResult url beautify, [])
  else runAttempts (baseResult url beautify)
    (scrape_attempts beautify env firefox_profile chrome_profile)

/-- The return value of `scrape_url_orchestrator`. -/
def scrape_url_orchestrator (url : String) (beautify : Bool) (env : ScrapeEnv)
    (firefox_profile chrome_profile : Option String) : CascadeResult :=
  (orchestrate url beautify env firefox_profile chrome_profile).1

/-- The strategies a run invokes, in order. -/
def invokedStrategies (url : String) (beautify : Bool) (env : ScrapeEnv)
    (firefox_profile chrome_profile : Option String) : List String :=
  (orchestrate url beautify env firefox_profile chrome_profile).2

/-! ## Reporter and exit status (lines 486-537 of `main`) -/

/-- The constant `max_console_len` (line 523). -/
def max_console_len : Nat := 10000

/-- Python slicing `s[:n]`. -/
def takeStr (s : String) (n : Nat) : String := String.mk (s.data.take n)

/-- The truncation notice of line 526. -/
def truncNotice (output_content : String) : String :=
  "\n... [Output truncated for console display, full content length: " ++
    toString output_content.length ++ " characters]"

/-- The lines printed to the console when no output file is given
(lines 521-529). -/
def consoleLines (output_content : String) : List String :=
  ["\n--- Output ---"] ++
  (if output_content.length > max_console_len then
    [takeStr output_content max_console_len, truncNotice output_content]
   else [output_content]) ++
  ["--- End Output ---"]

/-- The process exit status (lines 532-537): 1 exactly when `content` is
`None`. -/
def exitCode (result : CascadeResult) : Nat :=
  if result.content = none then 1 else 0

/-- A concrete environment in which every strategy fails. -/
def envAllFail : ScrapeEnv :=
  { httpxText := none, cloudText := none, playwrightAvailable := true,
    playwrightPage := none, seleniumAvailable := true, firefoxPage := none,
    chromePage := none, pathExists := fun _ => false }

/-- Fields `content`, `method` present and `error` absent rise and fall
together. -/
def invariantOk (r : CascadeResult) : Prop :=
  (r.content.isSome ↔ r.method.isSome) ∧ (r.content.isSome ↔ r.error = none)

mutual
/-- Does an element named `name` occur anywhere in this node? -/
def hasElemN (name : String) : Html → Bool
  | .text _ => false
  | .elem n _ cs => n == name || hasElemF name cs
/-- Does an element named `name` occur anywhere in this forest? -/
def hasElemF (name : String) : Forest → Bool
  | .nil => false
  | .cons h t => hasElemN name h || hasElemF name t
end

/-- The head character is absent or not whitespace (`str.strip()` has
nothing to remove at the front). -/
def headNonWs : List Char → Bool
  | [] => true
  | c :: _ => !isWs c

/-- The last character is absent or not whitespace (`str.strip()` has
nothing to remove at the back). -/
def endsNonWs (l : List Char) : Bool := headNonWs l.reverse

/-- Does the text contain a blank line, i.e. two adjacent newlines? -/
def hasBlankLine : List Char → Bool
  | '\n' :: '\n' :: _ => true
  | _ :: t => hasBlankLine t
  | [] => false

/-! ## Sanity evaluations and verified properties -/

example : collapseStr "a\n\n\nb" = "a\n\nb" := by decide
example : collapseStr "a\n \n \nb" = "a\n\nb" := by decide
example : collapseStr "\n\n \n" = "\n\n" := by decide
example : collapseStr "x\n y\n\nz" = "x\n y\n\nz" := by decide
example : stripStr "  a b \n" = "a b" := by decide

example : clean_html "<html><body><main>Hello</main></body></html>" = "Hello" := rfl
example : clean_html "<p>a</p>\n\n\n<p>b</p>" = "a\nb" := rfl
example : clean_html "<body>&lt;nav&gt;menu&lt;/nav&gt;hello</body>" = "<nav>menu</nav>hello" := rfl
example : clean_html "<nav>menu</nav>hello" = "hello" := rfl
example : clean_html "a\n\n\n\nb" = "a\n\nb" := rfl
example : clean_html "" = "" := rfl

example :
    scrape_url_orchestrator "https://example.com" true envAllFail none none =
      { url := "https://example.com", content := none, method := none,
        beautified := true, error := some "All scraping methods failed" } := rfl

example :
    scrape_url_orchestrator "ftp://example.com" true envAllFail none none =
      invalidResult "ftp://example.com" true := rfl

example :
    scrape_url_orchestrator "https://example.com" true
      { envAllFail with httpxText := some "<main>hi</main>" } none none =
      { url := "https://example.com", content := some "hi",
        method := some "httpx", beautified := true, error := none } := rfl

example :
    invokedStrategies "https://example.com" true
      { envAllFail with playwrightPage := some "x" } none none =
      ["fast", "playwright"] := rfl

theorem afterLastNl_length : ∀ {l r : List Char}, afterLastNl l = some r → r.length < l.length := by
  intro l
  induction l with
  | nil => intro r h; simp [afterLastNl] at h
  | cons c t ih =>
    intro r h
    simp only [afterLastNl] at h
    by_cases hw : isWs c
    · simp [hw] at h
      cases hr : afterLastNl t with
      | some r' =>
        rw [hr] at h
        cases h
        exact Nat.lt_trans (ih hr) (Nat.lt_succ_self _)
      | none =>
        rw [hr] at h
        by_cases hn : c = '\n'
        · simp [hn] at h
          cases h
          exact Nat.lt_succ_self _
        · simp [hn] at h
    · simp [hw] at h

/-! ## The co-presence invariant (claim C1) -/

theorem fast_scrape_method (h c : Option String) (b : Bool)
    (hs : ((fast_scrape h c b).1).isSome) : ((fast_scrape h c b).2).isSome := by
  cases h with
  | some t =>
    simp only [fast_scrape] at hs ⊢
    by_cases ht : t = "" <;> simp [ht] at hs ⊢
  | none =>
    cases c with
    | some t =>
      simp only [fast_scrape] at hs ⊢
      by_cases ht : t = "" <;> simp [ht] at hs ⊢
    | none => simp [fast_scrape] at hs

theorem playwright_scrape_method (av : Bool) (pc : Option String) (b : Bool)
    (hs : ((playwright_scrape av pc b).1).isSome) :
    ((playwright_scrape av pc b).2).isSome := by
  cases av <;> cases pc <;> simp_all [playwright_scrape]

theorem firefox_scrape_method (sel : Bool) (pp : Option String)
    (pe : String → Bool) (ps : Option String) (b : Bool)
    (hs : ((firefox_scrape sel pp pe ps b).content).isSome) :
    ((firefox_scrape sel pp pe ps b).method).isSome := by
  cases sel <;> cases ps <;> simp_all [firefox_scrape]

theorem chrome_scrape_method (sel : Bool) (pp : Option String)
    (pe : String → Bool) (ps : Option String) (b : Bool)
    (hs : ((chrome_scrape sel pp pe ps b).content).isSome) :
    ((chrome_scrape sel pp pe ps b).method).isSome := by
  cases sel <;> cases ps <;> simp_all [chrome_scrape]

theorem runAttempts_invariant (base : CascadeResult)
    (h1 : base.content = none) (h2 : base.method = none) (h3 : base.error = none) :
    ∀ l : List (String × AttemptOutcome),
      (∀ p ∈ l, ∀ c m, p.2 = AttemptOutcome.returned c m → c.isSome → m.isSome) →
      invariantOk (runAttempts base l).1 := by
  intro l
  induction l with
  | nil =>
    intro _
    simp [runAttempts, invariantOk, h1, h2]
  | cons q rest ih =>
    intro hl
    obtain ⟨qn, qa⟩ := q
    cases qa with
    | raised =>
      simpa [runAttempts] using ih (fun p hp => hl p (by simp [hp]))
    | returned c m =>
      cases c with
      | none =>
        simpa [runAttempts] using ih (fun p hp => hl p (by simp [hp]))
      | some c' =>
        have hm : m.isSome :=
          hl (qn, AttemptOutcome.returned (some c') m) (by simp) (some c') m rfl (by simp)
        simp [runAttempts, invariantOk, h3, hm]

/-- C1.  For every URL, environment and profile configuration, the
orchestrator's result satisfies the co-presence invariant: the content is
present iff the strategy name (`method`) is present iff the error is
absent — on success, on the invalid-input short-circuit, and on total
failure alike. -/
theorem claim1_copresence (url : String) (beautify : Bool) (env : ScrapeEnv)
    (firefox_profile chrome_profile : Option String) :
    invariantOk (scrape_url_orchestrator url beautify env firefox_profile chrome_profile) := by
  unfold scrape_url_orchestrator orchestrate
  by_cases hv : urlIsInvalid url
  · simp [hv, invalidResult, invariantOk]
  · simp only [hv, Bool.false_eq_true, if_false]
    apply runAttempts_invariant (baseResult url beautify) rfl rfl rfl
    intro p hp c m hret hc
    simp only [scrape_attempts, List.mem_cons, List.mem_singleton,
      List.not_mem_nil, or_false] at hp
    rcases hp with h | h | h | h <;> subst h <;>
      simp only at hret <;> cases hret
    · exact fast_scrape_method _ _ _ hc
    · exact playwright_scrape_method _ _ _ hc
    · exact firefox_scrape_method _ _ _ _ _ hc
    · exact chrome_scrape_method _ _ _ _ _ hc

/-! ## The at-most-one-success short-circuit (claim C2) -/

/-- C2.  Part 1: in the attempt loop, as soon as one strategy returns
non-`None` content, the loop returns that content and method at once; the
invoked strategies are exactly the failing ones before it plus itself, so
no later strategy is ever invoked.  Part 2: for a valid URL the
orchestrator is exactly this loop run on the fixed list
fast → playwright → firefox → chrome. -/
theorem claim2_short_circuit :
    (∀ (base : CascadeResult) (pre : List (String × AttemptOutcome))
        (name : String) (c : String) (m : Option String)
        (post : List (String × AttemptOutcome)),
      (∀ p ∈ pre, p.2 = AttemptOutcome.raised ∨
          ∃ m', p.2 = AttemptOutcome.returned none m') →
      runAttempts base (pre ++ (name, AttemptOutcome.returned (some c) m) :: post) =
        ({ base with content := some c, method := m },
          pre.map Prod.fst ++ [name])) ∧
    (∀ (url : String) (beautify : Bool) (env : ScrapeEnv)
        (firefox_profile chrome_profile : Option String),
      urlIsInvalid url = false →
      orchestrate url beautify env firefox_profile chrome_profile =
        runAttempts (baseResult url beautify)
          (scrape_attempts beautify env firefox_profile chrome_profile)) := by
  constructor
  · intro base pre name c m post hpre
    induction pre with
    | nil => simp [runAttempts]
    | cons q rest ih =>
      obtain ⟨qn, qa⟩ := q
      rcases hpre (qn, qa) (by simp) with h | ⟨m', h⟩ <;> simp only at h <;> subst h <;>
        simp [runAttempts, ih (fun p hp => hpre p (by simp [hp]))]
  · intro url beautify env fp cp hv
    simp [orchestrate, hv]

/-- Witness for C2: with the fast strategy failing, playwright succeeding
and a later (would-succeed) firefox attempt present, the loop stops at
playwright and firefox is never invoked. -/
theorem claim2_short_circuit_witness :
    (∀ p ∈ [("fast", AttemptOutcome.returned none none)],
      p.2 = AttemptOutcome.raised ∨ ∃ m', p.2 = AttemptOutcome.returned none m') ∧
    runAttempts (baseResult "https://example.com" true)
      ([("fast", AttemptOutcome.returned none none)] ++
        ("playwright", AttemptOutcome.returned (some "hi") (some "playwright")) ::
        [("firefox", AttemptOutcome.returned (some "later") (some "firefox"))]) =
      ({ baseResult "https://example.com" true with
          content := some "hi", method := some "playwright" },
        ["fast", "playwright"]) ∧
    urlIsInvalid "https://example.com" = false ∧
    orchestrate "https://example.com" true envAllFail none none =
      runAttempts (baseResult "https://example.com" true)
        (scrape_attempts true envAllFail none none) := by
  refine ⟨fun p hp => ?_, ?_, rfl, ?_⟩
  · simp at hp
    exact Or.inr ⟨none, by simp [hp]⟩
  · exact claim2_short_circuit.1 _ _ _ _ _ _
      (fun p hp => by simp at hp; exact Or.inr ⟨none, by simp [hp]⟩)
  · exact claim2_short_circuit.2 _ _ _ _ _ rfl

/-! ## Total failure (claim C3) -/

/-- C3.  For a valid URL, if every strategy in the cascade fails (returns
no content), the orchestrator's result carries the terminal error
`"All scraping methods failed"` and no content. -/
theorem claim3_all_fail (url : String) (beautify : Bool) (env : ScrapeEnv)
    (firefox_profile chrome_profile : Option String)
    (hv : urlIsInvalid url = false)
    (h1 : (fast_scrape env.httpxText env.cloudText beautify).1 = none)
    (h2 : (playwright_scrape env.playwrightAvailable env.playwrightPage beautify).1 = none)
    (h3 : (firefox_scrape env.seleniumAvailable firefox_profile env.pathExists
            env.firefoxPage beautify).content = none)
    (h4 : (chrome_scrape env.seleniumAvailable chrome_profile env.pathExists
            env.chromePage beautify).content = none) :
    scrape_url_orchestrator url beautify env firefox_profile chrome_profile =
      { url := url, content := none, method := none, beautified := beautify,
        error := some "All scraping methods failed" } := by
  simp [scrape_url_orchestrator, orchestrate, hv, scrape_attempts, runAttempts,
    h1, h2, h3, h4, baseResult]

/-- Witness for C3 at a concrete environment where every strategy fails. -/
theorem claim3_all_fail_witness :
    urlIsInvalid "https://example.com" = false ∧
    (fast_scrape envAllFail.httpxText envAllFail.cloudText true).1 = none ∧
    scrape_url_orchestrator "https://example.com" true envAllFail none none =
      { url := "https://example.com", content := none, method := none,
        beautified := true, error := some "All scraping methods failed" } :=
  ⟨rfl, rfl, claim3_all_fail "https://example.com" true envAllFail none none
    rfl rfl rfl rfl rfl⟩

/-! ## Invalid input short-circuits the cascade (claim C4) -/

/-- C4.  For every input URL that does not start with `http://` or
`https://` (which covers the empty string, `ftp://…` and non-URL strings),
the orchestrator returns the invalid-input failure — error
`"Invalid URL schema"`, no content — and invokes no strategy at all. -/
theorem claim4_invalid_input (url : String) (beautify : Bool) (env : ScrapeEnv)
    (firefox_profile chrome_profile : Option String)
    (h1 : startswith url "http://" = false)
    (h2 : startswith url "https://" = false) :
    scrape_url_orchestrator url beautify env firefox_profile chrome_profile =
      { url := url, content := none, method := none, beautified := beautify,
        error := some "Invalid URL schema" } ∧
    invokedStrategies url beautify env firefox_profile chrome_profile = [] := by
  have hv : urlIsInvalid url = true := by simp [urlIsInvalid, h1, h2]
  constructor <;>
    simp [scrape_url_orchestrator, invokedStrategies, orchestrate, hv, invalidResult]

/-- Witness for C4 at the spec's example inputs `"ftp://example.com"`,
`"not-a-url"` and the empty string. -/
theorem claim4_invalid_input_witness :
    (startswith "ftp://example.com" "http://" = false ∧
      scrape_url_orchestrator "ftp://example.com" true envAllFail none none =
        { url := "ftp://example.com", content := none, method := none,
          beautified := true, error := some "Invalid URL schema" }) ∧
    (scrape_url_orchestrator "not-a-url" true envAllFail none none =
        { url := "not-a-url", content := none, method := none,
          beautified := true, error := some "Invalid URL schema" } ∧
      invokedStrategies "" false envAllFail none none = []) :=
  ⟨⟨rfl, (claim4_invalid_input "ftp://example.com" true envAllFail none none
      rfl rfl).1⟩,
    (claim4_invalid_input "not-a-url" true envAllFail none none rfl rfl).1,
    (claim4_invalid_input "" false envAllFail none none rfl rfl).2⟩

/-! ## Empty-string content (claim C5)

The orchestrator's test (line 412) indeed accepts the empty string as valid
content, and the browser strategies can produce it.  But the *fast*
strategy's own `if content:` (line 135) is Python truthiness: an empty
response body is treated as a failure there, so the claim is false for the
fast strategy. -/

/-- Counterexample to C5 as stated: when the fast strategy's HTTP client
retrieves the empty string, `fast_scrape` returns `(None, None)` — a
failure, not a success — so with all other strategies failing the cascade
does not stop at it, the run ends in total failure and the exit status
is 1, not 0. -/
theorem claim5_counterexample :
    fast_scrape (some "") none true = (none, none) ∧
    scrape_url_orchestrator "https://example.com" true
      { envAllFail with httpxText := some "" } none none =
      { url := "https://example.com", content := none, method := none,
        beautified := true, error := some "All scraping methods failed" } ∧
    exitCode (scrape_url_orchestrator "https://example.com" true
      { envAllFail with httpxText := some "" } none none) = 1 :=
  ⟨rfl, rfl, rfl⟩

/-- C5 as amended: the *orchestrator* treats empty-string content as a
valid success — the loop stops at it and the exit status is 0 — and each
*browser* strategy turns an empty rendered page into exactly such a
success; only the fast strategy maps an empty response body to a failure
(see the counterexample). -/
theorem claim5_empty_success :
    (∀ beautify, playwright_scrape true (some "") beautify =
      (some "", some "playwright")) ∧
    (∀ (pe : String → Bool) (beautify : Bool),
      (firefox_scrape true none pe (some "") beautify).content = some "" ∧
      (firefox_scrape true none pe (some "") beautify).method = some "firefox") ∧
    (∀ (pe : String → Bool) (beautify : Bool),
      (chrome_scrape true none pe (some "") beautify).content = some "" ∧
      (chrome_scrape true none pe (some "") beautify).method = some "chrome") ∧
    (∀ (base : CascadeResult) (name : String) (m : Option String)
        (rest : List (String × AttemptOutcome)),
      runAttempts base ((name, AttemptOutcome.returned (some "") m) :: rest) =
        ({ base with content := some "", method := m }, [name])) ∧
    (∀ r : CascadeResult, r.content = some "" → exitCode r = 0) := by
  refine ⟨fun b => ?_, fun pe b => ?_, fun pe b => ?_, fun base name m rest => ?_, fun r h => ?_⟩
  · cases b <;> rfl
  · cases b <;> exact ⟨rfl, rfl⟩
  · cases b <;> exact ⟨rfl, rfl⟩
  · simp [runAttempts]
  · simp [exitCode, h]

/-- Witness for C5 (amended): a concrete run where playwright renders an
empty page; the cascade stops there with content `""` and exit status 0. -/
theorem claim5_empty_success_witness :
    playwright_scrape true (some "") true = (some "", some "playwright") ∧
    runAttempts (baseResult "https://example.com" true)
      [("playwright", AttemptOutcome.returned (some "") (some "playwright"))] =
      ({ baseResult "https://example.com" true with
          content := some "", method := some "playwright" }, ["playwright"]) ∧
    ({ baseResult "https://example.com" true with
        content := some "", method := some "playwright" } : CascadeResult).content =
      some "" ∧
    exitCode { baseResult "https://example.com" true with
        content := some "", method := some "playwright" } = 0 :=
  ⟨claim5_empty_success.1 true,
    claim5_empty_success.2.2.2.1 _ _ _ _,
    rfl,
    claim5_empty_success.2.2.2.2 _ rfl⟩

/-! ## Missing profile directory behaves as no profile (claim C9) -/

/-- C9.  For both profile-capable browser strategies, a profile path that
does not exist on disk yields exactly the run of the anonymous session:
the launch arguments omit the profile flags and the whole observable
strategy outcome equals the no-profile one; no error is produced. -/
theorem claim9_missing_profile (seleniumAvailable : Bool) (p : String)
    (pathExists : String → Bool) (pageSource : Option String) (beautify : Bool)
    (hne : pathExists p = false) :
    firefox_scrape seleniumAvailable (some p) pathExists pageSource beautify =
      firefox_scrape seleniumAvailable none pathExists pageSource beautify ∧
    chrome_scrape seleniumAvailable (some p) pathExists pageSource beautify =
      chrome_scrape seleniumAvailable none pathExists pageSource beautify ∧
    firefoxOptionArgs (some p) pathExists = ["--headless", "--window-size=1920,1080"] ∧
    chromeOptionArgs (some p) pathExists =
      ["--headless=new", "--no-sandbox", "--disable-dev-shm-usage", "--disable-gpu",
       "--window-size=1920,1080", "--log-level=3"] := by
  have hf : firefoxOptionArgs (some p) pathExists = firefoxOptionArgs none pathExists := by
    simp [firefoxOptionArgs, hne]
  have hc : chromeOptionArgs (some p) pathExists = chromeOptionArgs none pathExists := by
    simp [chromeOptionArgs, hne]
  refine ⟨?_, ?_, by simpa [firefoxOptionArgs] using hf, by simpa [chromeOptionArgs] using hc⟩
  · simp only [firefox_scrape, hf]
  · simp only [chrome_scrape, hc]

/-- Witness for C9: a concrete nonexistent profile path gives the same
firefox run as an anonymous session. -/
theorem claim9_missing_profile_witness :
    ((fun _ : String => false) "/tmp/no-such-profile") = false ∧
    firefox_scrape true (some "/tmp/no-such-profile") (fun _ => false)
        (some "<main>hi</main>") true =
      firefox_scrape true none (fun _ => false) (some "<main>hi</main>") true :=
  ⟨rfl, (claim9_missing_profile true "/tmp/no-such-profile" (fun _ => false)
    (some "<main>hi</main>") true rfl).1⟩

/-! ## Console truncation (claim C10) -/

/-- C10.  When the rendered output exceeds 10000 characters, the console
shows exactly the first 10000 characters of it followed by a truncation
notice; the full content string (strictly longer than the printed prefix)
is not printed. -/
theorem claim10_console_truncation (output_content : String)
    (hlen : max_console_len < output_content.length) :
    consoleLines output_content =
      ["\n--- Output ---", takeStr output_content max_console_len,
        truncNotice output_content, "--- End Output ---"] ∧
    (takeStr output_content max_console_len).length = max_console_len ∧
    takeStr output_content max_console_len ≠ output_content := by
  have htake : (takeStr output_content max_console_len).length = max_console_len := by
    show (output_content.data.take max_console_len).length = max_console_len
    rw [List.length_take]
    exact Nat.min_eq_left (Nat.le_of_lt hlen)
  refine ⟨by simp [consoleLines, hlen], htake, ?_⟩
  intro he
  have h2 : (takeStr output_content max_console_len).length = output_content.length := by
    rw [he]
  omega

/-- Witness for C10 at a concrete 10001-character output string. -/
theorem claim10_console_truncation_witness :
    max_console_len < (String.mk (List.replicate 10001 'a')).length ∧
    consoleLines (String.mk (List.replicate 10001 'a')) =
      ["\n--- Output ---",
        takeStr (String.mk (List.replicate 10001 'a')) max_console_len,
        truncNotice (String.mk (List.replicate 10001 'a')), "--- End Output ---"] ∧
    takeStr (String.mk (List.replicate 10001 'a')) max_console_len ≠
      String.mk (List.replicate 10001 'a') := by
  have h : max_console_len < (String.mk (List.replicate 10001 'a')).length := by
    show max_console_len < (List.replicate 10001 'a').length
    rw [List.length_replicate]
    norm_num [max_console_len]
  exact ⟨h, (claim10_console_truncation _ h).1, (claim10_console_truncation _ h).2.2⟩

/-! ## Noise removal and the primary-content root priority (claim C8) -/

mutual
theorem rmNoiseN_clean (name : String) (hn : name ∈ tags_to_remove) :
    ∀ (h : Html) (h' : Html), rmNoiseN h = some h' → hasElemN name h' = false
  | .text s, h', e => by
    simp only [rmNoiseN, Option.some.injEq] at e
    subst e
    rfl
  | .elem n a cs, h', e => by
    by_cases hmem : n ∈ tags_to_remove
    · simp [rmNoiseN, hmem] at e
    · simp only [rmNoiseN, hmem, if_false, Option.some.injEq] at e
      subst e
      have hne : (n == name) = false := by
        simp only [beq_eq_false_iff_ne, ne_eq]
        intro heq
        exact hmem (heq ▸ hn)
      simp [hasElemN, hne, rmNoiseF_clean name hn cs]
theorem rmNoiseF_clean (name : String) (hn : name ∈ tags_to_remove) :
    ∀ f : Forest, hasElemF name (rmNoiseF f) = false
  | .nil => by simp [rmNoiseF, hasElemF]
  | .cons h t => by
    cases e : rmNoiseN h with
    | none => simpa [rmNoiseF, e] using rmNoiseF_clean name hn t
    | some h' =>
      simp [rmNoiseF, e, hasElemF, rmNoiseN_clean name hn h h' e,
        rmNoiseF_clean name hn t]
end

/-- C8.  The cleaned-mode normalizer removes every noise-category element
(no element named by `tags_to_remove` survives `rmNoiseF`), and picks its
primary-content root by the fixed priority `main` → `article` →
`div[role=main]` → `body`, first match wins; in particular cleaning
`"<html><body><main>Hello</main></body></html>"` yields exactly
`"Hello"`. -/
theorem claim8_root_priority :
    (∀ name ∈ tags_to_remove, ∀ f : Forest, hasElemF name (rmNoiseF f) = false) ∧
    (∀ (soup : Forest) (m : Html), findF pMain soup = some m →
      selectRoot soup = some m) ∧
    (∀ (soup : Forest) (a : Html), findF pMain soup = none →
      findF pArticle soup = some a → selectRoot soup = some a) ∧
    (∀ (soup : Forest) (d : Html), findF pMain soup = none →
      findF pArticle soup = none → findF pDivRoleMain soup = some d →
      selectRoot soup = some d) ∧
    (∀ soup : Forest, findF pMain soup = none → findF pArticle soup = none →
      findF pDivRoleMain soup = none → selectRoot soup = findF pBody soup) ∧
    clean_html "<html><body><main>Hello</main></body></html>" = "Hello" := by
  refine ⟨fun name hn f => rmNoiseF_clean name hn f, ?_, ?_, ?_, ?_, rfl⟩
  · intro soup m h
    simp [selectRoot, h]
  · intro soup a h1 h2
    simp [selectRoot, h1, h2]
  · intro soup d h1 h2 h3
    simp [selectRoot, h1, h2, h3]
  · intro soup h1 h2 h3
    simp [selectRoot, h1, h2, h3]

/-- Witness for C8: each priority rule applied at a concrete document, and
noise removal applied at a concrete forest containing a `script`. -/
theorem claim8_root_priority_witness :
    ("script" ∈ tags_to_remove ∧
      hasElemF "script"
        (rmNoiseF (.cons (.elem "body" []
          (.cons (.elem "script" [] (.cons (.text "x") .nil)) .nil)) .nil)) = false) ∧
    (findF pMain (.cons (.elem "main" [] (.cons (.text "x") .nil)) .nil) =
        some (.elem "main" [] (.cons (.text "x") .nil)) ∧
      selectRoot (.cons (.elem "main" [] (.cons (.text "x") .nil)) .nil) =
        some (.elem "main" [] (.cons (.text "x") .nil))) ∧
    (selectRoot (.cons (.elem "article" [] .nil) .nil) =
        some (.elem "article" [] .nil)) ∧
    (selectRoot (.cons (.elem "div" [("role", "main")] .nil) .nil) =
        some (.elem "div" [("role", "main")] .nil)) ∧
    (selectRoot (.cons (.elem "body" [] .nil) .nil) =
        findF pBody (.cons (.elem "body" [] .nil) .nil)) := by
  refine ⟨⟨by decide, claim8_root_priority.1 "script" (by decide) _⟩, ⟨rfl, ?_⟩, ?_, ?_, ?_⟩
  · exact claim8_root_priority.2.1 _ _ rfl
  · exact claim8_root_priority.2.2.1 _ _ rfl rfl
  · exact claim8_root_priority.2.2.2.1 _ _ rfl rfl rfl
  · exact claim8_root_priority.2.2.2.2.1 _ rfl rfl rfl

/-! ## Behavior of the blank-line collapsing step (claims C6 and C7) -/

theorem collapseGo_fuel : ∀ (f : Nat), ∀ l : List Char, l.length ≤ f →
    collapseGo f l = collapseChars l := by
  intro f
  induction f using Nat.strong_induction_on with
  | _ f ih =>
    intro l hl
    cases l with
    | nil => unfold collapseChars; cases f <;> rfl
    | cons c t =>
      cases f with
      | zero => simp at hl
      | succ f' =>
        have ht : t.length ≤ f' := by simpa using hl
        unfold collapseChars
        simp only [List.length_cons]
        by_cases hc : c = '\n'
        · subst hc
          cases ha : afterLastNl t with
          | some r =>
            have hr : r.length < t.length := afterLastNl_length ha
            simp only [collapseGo, ha, if_pos]
            rw [ih f' (Nat.lt_succ_self _) r (by omega),
                ih t.length (Nat.lt_succ_of_le ht) r (by omega)]
          | none =>
            simp only [collapseGo, ha, if_pos]
            rw [ih f' (Nat.lt_succ_self _) t ht]
            rfl
        · simp only [collapseGo, if_neg hc]
          rw [ih f' (Nat.lt_succ_self _) t ht]
          rfl

theorem collapseChars_cons_ne {c : Char} (hc : c ≠ '\n') (t : List Char) :
    collapseChars (c :: t) = c :: collapseChars t := by
  unfold collapseChars
  simp only [List.length_cons, collapseGo, if_neg hc]

theorem collapseChars_nl_none {t : List Char} (ha : afterLastNl t = none) :
    collapseChars ('\n' :: t) = '\n' :: collapseChars t := by
  unfold collapseChars
  simp only [List.length_cons, collapseGo, ha, if_pos]

theorem collapseChars_nl_some {t r : List Char} (ha : afterLastNl t = some r) :
    collapseChars ('\n' :: t) = '\n' :: '\n' :: collapseChars r := by
  unfold collapseChars
  simp only [List.length_cons, collapseGo, ha, if_pos]
  rw [collapseGo_fuel t.length r (Nat.le_of_lt (afterLastNl_length ha))]
  rfl

theorem afterLastNl_head_nonws {c : Char} {t : List Char} (hc : isWs c = false) :
    afterLastNl (c :: t) = none := by
  simp [afterLastNl, hc]

theorem afterLastNl_of_headNonWs : ∀ {b : List Char}, headNonWs b = true →
    afterLastNl b = none := by
  intro b hb
  cases b with
  | nil => rfl
  | cons c t =>
    simp only [headNonWs, Bool.not_eq_true'] at hb
    exact afterLastNl_head_nonws hb

theorem afterLastNl_replicate (b : List Char) (hb : headNonWs b = true) :
    ∀ m : Nat, 1 ≤ m → afterLastNl (List.replicate m '\n' ++ b) = some b := by
  intro m
  induction m with
  | zero => omega
  | succ m' ih =>
    intro _
    rw [List.replicate_succ, List.cons_append]
    by_cases hm : 1 ≤ m'
    · simp only [afterLastNl, ih hm]
      rfl
    · have : m' = 0 := by omega
      subst this
      simp only [List.replicate_zero, List.nil_append, afterLastNl,
        afterLastNl_of_headNonWs hb]
      rfl

theorem collapse_nonws_front : ∀ (a : List Char), (∀ c ∈ a, isWs c = false) →
    ∀ t : List Char, collapseChars (a ++ t) = a ++ collapseChars t := by
  intro a
  induction a with
  | nil => intro _ t; simp
  | cons c a' ih =>
    intro ha t
    have hcw : isWs c = false := ha c (by simp)
    have hc : c ≠ '\n' := by
      intro h
      subst h
      simp [isWs] at hcw
    rw [List.cons_append, collapseChars_cons_ne hc,
      ih (fun d hd => ha d (by simp [hd])) t]
    rfl

theorem collapse_nonws_id (b : List Char) (hb : ∀ c ∈ b, isWs c = false) :
    collapseChars b = b := by
  have h := collapse_nonws_front b hb []
  have h2 : collapseChars ([] : List Char) = [] := rfl
  rw [h2] at h
  simpa using h

/-- Counterexample to C7 as stated: the input
`"<p>a</p>\n\n\n<p>b</p>"` contains a run of 2 consecutive blank lines, yet
the cleaned output is `"a\nb"`, which contains no blank line at all at the
corresponding position — text extraction with `strip=True` drops
whitespace-only runs lying between elements before the collapsing regex
ever sees them. -/
theorem claim7_counterexample :
    clean_html "<p>a</p>\n\n\n<p>b</p>" = "a\nb" ∧
    hasBlankLine "<p>a</p>\n\n\n<p>b</p>".data = true ∧
    hasBlankLine (clean_html "<p>a</p>\n\n\n<p>b</p>").data = false :=
  ⟨rfl, rfl, rfl⟩

/-- C7 as amended: a run of k ≥ 2 consecutive newlines that survives text
extraction — one embedded between non-whitespace text inside a single
extracted run — is collapsed by the normalizer's regex step to exactly one
blank line (`"\n\n"`); whitespace-only runs between elements are instead
dropped entirely (see the counterexample).  Concretely, cleaning
`"a\n\n\n\nb"` (three blank lines inside one text run) yields
`"a\n\nb"` — exactly one blank line. -/
theorem claim7_blank_collapse :
    (∀ (a b : List Char) (k : Nat), 2 ≤ k →
      (∀ c ∈ a, isWs c = false) → (∀ c ∈ b, isWs c = false) →
      collapseChars (a ++ List.replicate k '\n' ++ b) = a ++ '\n' :: '\n' :: b) ∧
    clean_html "a\n\n\n\nb" = "a\n\nb" := by
  refine ⟨?_, rfl⟩
  intro a b k hk ha hb
  have hbh : headNonWs b = true := by
    cases b with
    | nil => rfl
    | cons d t =>
      simp [headNonWs, hb d (by simp)]
  rw [List.append_assoc, collapse_nonws_front a ha]
  obtain ⟨k', rfl⟩ : ∃ k', k = k' + 1 := ⟨k - 1, by omega⟩
  rw [List.replicate_succ, List.cons_append,
    collapseChars_nl_some (afterLastNl_replicate b hbh k' (by omega)),
    collapse_nonws_id b hb]

/-- Witness for C7 (amended): the run `"x\n\n\ny"` (two blank lines inside
non-whitespace text) collapses to `"x\n\ny"` — exactly one blank line. -/
theorem claim7_blank_collapse_witness :
    (2 ≤ 3 ∧ (∀ c ∈ ['x'], isWs c = false) ∧ (∀ c ∈ ['y'], isWs c = false)) ∧
    collapseChars (['x'] ++ List.replicate 3 '\n' ++ ['y']) =
      ['x'] ++ '\n' :: '\n' :: ['y'] :=
  ⟨⟨by omega, by decide, by decide⟩,
    claim7_blank_collapse.1 ['x'] ['y'] 3 (by omega) (by decide) (by decide)⟩

/-! ## Idempotence analysis of the cleaning pipeline (claim C6) -/

theorem afterLastNl_some_none : ∀ {l r : List Char},
    afterLastNl l = some r → afterLastNl r = none := by
  intro l
  induction l with
  | nil => intro r h; simp [afterLastNl] at h
  | cons c t ih =>
    intro r h
    simp only [afterLastNl] at h
    cases hw : isWs c with
    | false => simp [hw] at h
    | true =>
      simp only [hw, if_true] at h
      cases hr : afterLastNl t with
      | some r' =>
        rw [hr] at h
        cases h
        exact ih hr
      | none =>
        rw [hr] at h
        by_cases hn : c = '\n'
        · simp only [hn, if_true] at h
          cases h
          exact hr
        · simp [hn] at h

theorem afterLastNl_decomp : ∀ {l r : List Char}, afterLastNl l = some r →
    ∃ w, (∀ c ∈ w, isWs c = true) ∧ l = w ++ '\n' :: r := by
  intro l
  induction l with
  | nil => intro r h; simp [afterLastNl] at h
  | cons c t ih =>
    intro r h
    simp only [afterLastNl] at h
    cases hw : isWs c with
    | false => simp [hw] at h
    | true =>
      simp only [hw, if_true] at h
      cases hr : afterLastNl t with
      | some r' =>
        rw [hr] at h
        cases h
        obtain ⟨w, hww, hwt⟩ := ih hr
        exact ⟨c :: w, by simp [hw]; exact fun d hd => hww d hd, by simp [hwt]⟩
      | none =>
        rw [hr] at h
        by_cases hn : c = '\n'
        · simp only [hn, if_true] at h
          cases h
          exact ⟨[], by simp, by simp [hn]⟩
        · simp [hn] at h

theorem afterLastNl_nl_cons {t : List Char} (h : afterLastNl t = none) :
    afterLastNl ('\n' :: t) = some t := by
  simp [afterLastNl, h, isWs]

theorem afterLastNl_collapse_none : ∀ {l : List Char}, afterLastNl l = none →
    afterLastNl (collapseChars l) = none := by
  intro l
  induction l with
  | nil => intro _; rfl
  | cons c t ih =>
    intro h
    simp only [afterLastNl] at h
    cases hw : isWs c with
    | false =>
      have hc : c ≠ '\n' := by
        intro he
        subst he
        simp [isWs] at hw
      rw [collapseChars_cons_ne hc]
      exact afterLastNl_head_nonws hw
    | true =>
      simp only [hw, if_true] at h
      cases hr : afterLastNl t with
      | some r' => rw [hr] at h; simp at h
      | none =>
        rw [hr] at h
        by_cases hn : c = '\n'
        · simp [hn] at h
        · rw [collapseChars_cons_ne hn]
          simp [afterLastNl, hw, ih hr, hn]

theorem collapse_idem_aux : ∀ (n : Nat), ∀ l : List Char, l.length ≤ n →
    collapseChars (collapseChars l) = collapseChars l := by
  intro n
  induction n using Nat.strong_induction_on with
  | _ n ih =>
    intro l hl
    cases l with
    | nil => rfl
    | cons c t =>
      cases n with
      | zero => simp at hl
      | succ n' =>
        have ht : t.length ≤ n' := by simpa using hl
        by_cases hc : c = '\n'
        · subst hc
          cases ha : afterLastNl t with
          | none =>
            rw [collapseChars_nl_none ha,
              collapseChars_nl_none (afterLastNl_collapse_none ha),
              ih n' (Nat.lt_succ_self _) t ht]
          | some r =>
            have hr : r.length < t.length := afterLastNl_length ha
            have h1 : afterLastNl (collapseChars r) = none :=
              afterLastNl_collapse_none (afterLastNl_some_none ha)
            rw [collapseChars_nl_some ha,
              collapseChars_nl_some (afterLastNl_nl_cons h1),
              ih n' (Nat.lt_succ_self _) r (by omega)]
        · rw [collapseChars_cons_ne hc, collapseChars_cons_ne hc,
            ih n' (Nat.lt_succ_self _) t ht]

theorem collapse_idem (l : List Char) :
    collapseChars (collapseChars l) = collapseChars l :=
  collapse_idem_aux l.length l (Nat.le_refl _)

theorem collapse_ne_nil : ∀ {l : List Char}, l ≠ [] → collapseChars l ≠ [] := by
  intro l h
  cases l with
  | nil => exact absurd rfl h
  | cons c t =>
    by_cases hc : c = '\n'
    · subst hc
      cases ha : afterLastNl t with
      | none => rw [collapseChars_nl_none ha]; simp
      | some r => rw [collapseChars_nl_some ha]; simp
    · rw [collapseChars_cons_ne hc]; simp

theorem collapse_headNonWs {l : List Char} (h : headNonWs l = true) :
    headNonWs (collapseChars l) = true := by
  cases l with
  | nil => rfl
  | cons c t =>
    simp only [headNonWs, Bool.not_eq_true'] at h
    have hc : c ≠ '\n' := by
      intro he
      subst he
      simp [isWs] at h
    rw [collapseChars_cons_ne hc]
    simp [headNonWs, h]

theorem headNonWs_append {xs : List Char} (ys : List Char) (h : xs ≠ []) :
    headNonWs (xs ++ ys) = headNonWs xs := by
  cases xs with
  | nil => exact absurd rfl h
  | cons c t => rfl

theorem endsNonWs_append {ys : List Char} (xs : List Char) (h : ys ≠ []) :
    endsNonWs (xs ++ ys) = endsNonWs ys := by
  unfold endsNonWs
  rw [List.reverse_append, headNonWs_append _ (by simpa using h)]

theorem endsNonWs_cons {l : List Char} (c : Char) (h : l ≠ []) :
    endsNonWs (c :: l) = endsNonWs l := by
  have he : (c :: l) = [c] ++ l := rfl
  rw [he, endsNonWs_append [c] h]

theorem endsNonWs_concat (xs : List Char) (d : Char) :
    endsNonWs (xs ++ [d]) = !isWs d := by
  unfold endsNonWs
  rw [List.reverse_append, List.reverse_singleton]
  rfl

theorem collapse_endsNonWs_aux : ∀ (n : Nat), ∀ l : List Char, l.length ≤ n →
    endsNonWs l = true → endsNonWs (collapseChars l) = true := by
  intro n
  induction n using Nat.strong_induction_on with
  | _ n ih =>
    intro l hl he
    cases l with
    | nil => rfl
    | cons c t =>
      cases n with
      | zero => simp at hl
      | succ n' =>
        have ht : t.length ≤ n' := by simpa using hl
        by_cases htn : t = []
        · subst htn
          have hcw : (!isWs c) = true := he
          have hc : c ≠ '\n' := by
            intro hcc
            subst hcc
            simp [isWs] at hcw
          rw [collapseChars_cons_ne hc]
          exact he
        · have het : endsNonWs t = true := by
            rw [endsNonWs_cons c htn] at he
            exact he
          by_cases hc : c = '\n'
          · subst hc
            cases ha : afterLastNl t with
            | none =>
              rw [collapseChars_nl_none ha,
                endsNonWs_cons _ (collapse_ne_nil htn)]
              exact ih n' (Nat.lt_succ_self _) t ht het
            | some r =>
              obtain ⟨w, hww, hwt⟩ := afterLastNl_decomp ha
              by_cases hr : r = []
              · subst hr
                rw [hwt, endsNonWs_concat] at het
                simp [isWs] at het
              · have her : endsNonWs r = true := by
                  rw [hwt, endsNonWs_append w (by simp),
                    endsNonWs_cons _ hr] at het
                  exact het
                have hrl : r.length < t.length := afterLastNl_length ha
                rw [collapseChars_nl_some ha,
                  endsNonWs_cons _ (by simp),
                  endsNonWs_cons _ (collapse_ne_nil hr)]
                exact ih n' (Nat.lt_succ_self _) r (by omega) her
          · rw [collapseChars_cons_ne hc,
              endsNonWs_cons _ (collapse_ne_nil htn)]
            exact ih n' (Nat.lt_succ_self _) t ht het

theorem collapse_endsNonWs {l : List Char} (h : endsNonWs l = true) :
    endsNonWs (collapseChars l) = true :=
  collapse_endsNonWs_aux l.length l (Nat.le_refl _) h

theorem dropWhile_headNonWs_self {l : List Char} (h : headNonWs l = true) :
    l.dropWhile isWs = l := by
  cases l with
  | nil => rfl
  | cons c t =>
    simp only [headNonWs, Bool.not_eq_true'] at h
    simp [List.dropWhile_cons, h]

theorem headNonWs_dropWhile (l : List Char) :
    headNonWs (l.dropWhile isWs) = true := by
  induction l with
  | nil => rfl
  | cons c t ih =>
    cases hw : isWs c with
    | true => simpa [List.dropWhile_cons, hw] using ih
    | false => simp [List.dropWhile_cons, hw, headNonWs]

theorem strip_eq_self {l : List Char} (h1 : headNonWs l = true)
    (h2 : endsNonWs l = true) : stripChars l = l := by
  unfold stripChars
  rw [dropWhile_headNonWs_self h1, dropWhile_headNonWs_self h2,
    List.reverse_reverse]

theorem endsNonWs_dropWhile {l : List Char} (h : endsNonWs l = true) :
    endsNonWs (l.dropWhile isWs) = true := by
  by_cases hd : l.dropWhile isWs = []
  · rw [hd]; rfl
  · calc endsNonWs (l.dropWhile isWs)
        = endsNonWs (l.takeWhile isWs ++ l.dropWhile isWs) :=
          (endsNonWs_append _ hd).symm
      _ = endsNonWs l := by rw [List.takeWhile_append_dropWhile]
      _ = true := h

theorem strip_headNonWs (l : List Char) : headNonWs (stripChars l) = true := by
  have h : endsNonWs ((l.dropWhile isWs).reverse.dropWhile isWs) = true := by
    apply endsNonWs_dropWhile
    show endsNonWs ((l.dropWhile isWs).reverse) = true
    unfold endsNonWs
    rw [List.reverse_reverse]
    exact headNonWs_dropWhile l
  exact h

theorem strip_endsNonWs (l : List Char) : endsNonWs (stripChars l) = true := by
  unfold stripChars endsNonWs
  rw [List.reverse_reverse]
  exact headNonWs_dropWhile _

theorem joinNl_ne_nil {s : List Char} (ss : List (List Char)) (hs : s ≠ []) :
    joinNl (s :: ss) ≠ [] := by
  cases ss with
  | nil => simpa [joinNl] using hs
  | cons x t => simp [joinNl]

theorem joinNl_headNonWs (ss : List (List Char))
    (h : ∀ s ∈ ss, headNonWs s = true ∧ s ≠ []) :
    headNonWs (joinNl ss) = true := by
  cases ss with
  | nil => rfl
  | cons s t =>
    cases t with
    | nil => exact (h s (by simp)).1
    | cons x t' =>
      have hs := h s (by simp)
      show headNonWs (s ++ '\n' :: joinNl (x :: t')) = true
      rw [headNonWs_append _ hs.2]
      exact hs.1

theorem joinNl_endsNonWs : ∀ ss : List (List Char),
    (∀ s ∈ ss, endsNonWs s = true ∧ s ≠ []) →
    endsNonWs (joinNl ss) = true := by
  intro ss
  induction ss with
  | nil => intro _; rfl
  | cons s t ih =>
    intro h
    cases t with
    | nil => exact (h s (by simp)).1
    | cons x t' =>
      have hx := h x (by simp)
      have hjoin : joinNl (x :: t') ≠ [] := joinNl_ne_nil t' hx.2
      show endsNonWs (s ++ '\n' :: joinNl (x :: t')) = true
      rw [endsNonWs_append _ (by simp), endsNonWs_cons _ hjoin]
      exact ih (fun u hu => h u (by simp [hu]))

theorem getText_headNonWs (strs : List String) :
    headNonWs (getTextChars strs) = true ∧
    endsNonWs (getTextChars strs) = true := by
  have hmem : ∀ s ∈ (strs.map (fun s => stripChars s.data)).filter
      (fun s => !s.isEmpty),
      headNonWs s = true ∧ endsNonWs s = true ∧ s ≠ [] := by
    intro s hs
    rw [List.mem_filter] at hs
    obtain ⟨hmap, hne⟩ := hs
    rw [List.mem_map] at hmap
    obtain ⟨u, _, rfl⟩ := hmap
    refine ⟨strip_headNonWs _, strip_endsNonWs _, ?_⟩
    simpa using hne
  unfold getTextChars
  exact ⟨joinNl_headNonWs _ (fun s hs => ⟨(hmem s hs).1, (hmem s hs).2.2⟩),
    joinNl_endsNonWs _ (fun s hs => ⟨(hmem s hs).2.1, (hmem s hs).2.2⟩)⟩

theorem clean_pipeline (strs : List String) :
    stripChars (stripChars (collapseChars (getTextChars strs))) =
      stripChars (collapseChars (getTextChars strs)) ∧
    collapseChars (stripChars (collapseChars (getTextChars strs))) =
      stripChars (collapseChars (getTextChars strs)) ∧
    headNonWs (stripChars (collapseChars (getTextChars strs))) = true ∧
    endsNonWs (stripChars (collapseChars (getTextChars strs))) = true := by
  obtain ⟨hh, he⟩ := getText_headNonWs strs
  have hch : headNonWs (collapseChars (getTextChars strs)) = true :=
    collapse_headNonWs hh
  have hce : endsNonWs (collapseChars (getTextChars strs)) = true :=
    collapse_endsNonWs he
  have hs : stripChars (collapseChars (getTextChars strs)) =
      collapseChars (getTextChars strs) := strip_eq_self hch hce
  refine ⟨by rw [hs, hs], by rw [hs, collapse_idem], by rw [hs]; exact hch,
    by rw [hs]; exact hce⟩

theorem unescape_id : ∀ {l : List Char}, (∀ c ∈ l, c ≠ '&') →
    unescapeChars l = l := by
  intro l
  induction l with
  | nil => intro _; rfl
  | cons c t ih =>
    intro h
    have hc : c ≠ '&' := h c (by simp)
    show unescapeGo (t.length + 1) (c :: t) = c :: t
    simp only [unescapeGo, if_neg hc]
    exact congrArg (c :: ·) (ih (fun d hd => h d (by simp [hd])))

theorem takeText_no_lt : ∀ {l : List Char}, (∀ c ∈ l, c ≠ '<') →
    takeText l = (l, []) := by
  intro l
  induction l with
  | nil => intro _; rfl
  | cons c t ih =>
    intro h
    have hc : c ≠ '<' := h c (by simp)
    have hcond : (c = '<' && startsTag t) = false := by simp [hc]
    simp only [takeText, hcond, Bool.false_eq_true, if_false,
      ih (fun d hd => h d (by simp [hd]))]

theorem data_mk (l : List Char) : (String.mk l).data = l := rfl

theorem mk_data (s : String) : String.mk s.data = s := by
  cases s
  rfl

theorem parse_plain (y : String) (hne : y.data ≠ [])
    (h1 : ∀ c ∈ y.data, c ≠ '<') (h2 : ∀ c ∈ y.data, c ≠ '&') :
    parseHtml y = Forest.cons (Html.text y) Forest.nil := by
  unfold parseHtml
  have hfuel : 2 * y.data.length + 2 = (2 * y.data.length + 1) + 1 := rfl
  rw [hfuel]
  simp only [parseNodes, takeText_no_lt h1]
  cases hd : y.data with
  | nil => exact absurd hd hne
  | cons c t =>
    simp only [consText]
    rw [← hd, unescape_id h2, mk_data]

theorem clean_fixed (x : String) :
    stripChars (clean_html x).data = (clean_html x).data ∧
    collapseChars (clean_html x).data = (clean_html x).data ∧
    headNonWs (clean_html x).data = true ∧
    endsNonWs (clean_html x).data = true := by
  by_cases hx : x = ""
  · subst hx
    exact ⟨rfl, rfl, rfl, rfl⟩
  · unfold clean_html
    rw [if_neg hx]
    cases hsel : selectRoot (rmNoiseF (parseHtml x)) with
    | some root =>
      simp only [hsel, data_mk]
      exact clean_pipeline (getStringsN root)
    | none =>
      simp only [hsel, data_mk]
      exact clean_pipeline (getStringsF (rmNoiseF (parseHtml x)))

/-- Counterexample to C6 as stated: on the input
`"<body>&lt;nav&gt;menu&lt;/nav&gt;hello"`-style markup, the first cleaning
pass decodes the character references into the literal text
`"<nav>menu</nav>hello"`; cleaning that output again re-parses it as
markup, finds a real noise `nav` element, removes it, and returns
`"hello"` — so `clean_html` is not idempotent. -/
theorem claim6_counterexample :
    clean_html "<body>&lt;nav&gt;menu&lt;/nav&gt;hello</body>" =
      "<nav>menu</nav>hello" ∧
    clean_html (clean_html "<body>&lt;nav&gt;menu&lt;/nav&gt;hello</body>") =
      "hello" ∧
    clean_html (clean_html "<body>&lt;nav&gt;menu&lt;/nav&gt;hello</body>") ≠
      clean_html "<body>&lt;nav&gt;menu&lt;/nav&gt;hello</body>" :=
  ⟨rfl, rfl, by decide⟩

/-- C6 as amended: the cleaned-mode normalizer is idempotent on every input
whose cleaned output is free of markup metacharacters — no `'<'` and no
`'&'`.  (The counterexample shows idempotence fails as soon as the cleaned
text itself reads as markup.) -/
theorem claim6_idempotent_plain (x : String)
    (h : ∀ c ∈ (clean_html x).data, c ≠ '<' ∧ c ≠ '&') :
    clean_html (clean_html x) = clean_html x := by
  obtain ⟨hstrip, hcollapse, hhead, hends⟩ := clean_fixed x
  by_cases hy : clean_html x = ""
  · rw [hy]
    rfl
  · have hdata : (clean_html x).data ≠ [] := by
      intro hd
      apply hy
      have := congrArg String.mk hd
      rwa [mk_data] at this
    have hparse : parseHtml (clean_html x) =
        Forest.cons (Html.text (clean_html x)) Forest.nil :=
      parse_plain _ hdata (fun c hc => (h c hc).1) (fun c hc => (h c hc).2)
    have hgt : getTextChars [clean_html x] = (clean_html x).data := by
      unfold getTextChars
      have hemp : ((clean_html x).data.isEmpty = false) := by
        cases hd : (clean_html x).data with
        | nil => exact absurd hd hdata
        | cons c t => rfl
      simp only [List.map_cons, List.map_nil, List.filter, hstrip, hemp,
        Bool.not_false]
      rfl
    conv_lhs => rw [clean_html]
    rw [if_neg hy, hparse]
    have hrm : rmNoiseF (Forest.cons (Html.text (clean_html x)) Forest.nil) =
        Forest.cons (Html.text (clean_html x)) Forest.nil := rfl
    have hsel : selectRoot (Forest.cons (Html.text (clean_html x)) Forest.nil) =
        none := rfl
    rw [hrm, hsel]
    have hgs : getStringsF (Forest.cons (Html.text (clean_html x)) Forest.nil) =
        [clean_html x] := rfl
    rw [hgs, hgt, hcollapse, hstrip, mk_data]

/-- Witness for C6 (amended): the cleaned output of
`"<p>a</p>\n\n\n<p>b</p>"` is `"a\nb"`, free of `'<'` and `'&'`, and
cleaning it again returns it unchanged. -/
theorem claim6_idempotent_plain_witness :
    (∀ c ∈ (clean_html "<p>a</p>\n\n\n<p>b</p>").data, c ≠ '<' ∧ c ≠ '&') ∧
    clean_html (clean_html "<p>a</p>\n\n\n<p>b</p>") =
      clean_html "<p>a</p>\n\n\n<p>b</p>" :=
  ⟨by decide, claim6_idempotent_plain "<p>a</p>\n\n\n<p>b</p>" (by decide)⟩

end UScraper
